import Mathlib

/-!
Shallow embedding of the ChartCreator data-cleaning and chart-configuration
logic (src/visualization-app/src/visualization.py), together with proofs of
the specification's claims about it.

A table is modelled column-major, as the ordered list of named columns of a
pandas DataFrame; a cell is a string, a (rational) number, a signed infinity,
or the missing marker (NaN / pd.NA).
-/

set_option maxRecDepth 100000

namespace ChartCreator

/-- A cell of the table: textual, numeric, an infinity, or missing. -/
inductive Cell where
  | str : String → Cell
  | num : ℚ → Cell
  | inf : Bool → Cell
  | missing : Cell
deriving DecidableEq, Repr

def Cell.isMissing : Cell → Bool
  | .missing => true
  | _ => false

def Cell.isStr : Cell → Bool
  | .str _ => true
  | _ => false

def Cell.isNum : Cell → Bool
  | .num _ => true
  | _ => false

def Cell.isInf : Cell → Bool
  | .inf _ => true
  | _ => false

/-- `df.replace([inf, -inf], pd.NA)` acting on one cell. -/
def Cell.deInf : Cell → Cell
  | .inf _ => .missing
  | c => c

/-- Numeric value of a digit string (all characters assumed digits). -/
def digitsVal (cs : List Char) : ℕ :=
  cs.foldl (fun a c => a * 10 + (c.toNat - 48)) 0

/-- Drop the digit-grouping underscores of a Python numeric literal; fails
unless every underscore sits between two digits. The first argument is the
character preceding the rest of the literal, if any. -/
def stripUnderscores : Option Char → List Char → Option (List Char)
  | _, [] => some []
  | prev, c :: rest =>
    if c = '_' then
      match prev, rest with
      | some p, n :: _ =>
        if p.isDigit && n.isDigit then stripUnderscores (some c) rest else none
      | _, _ => none
    else (stripUnderscores (some c) rest).map (fun l => c :: l)

/-- Split a literal at the first exponent marker, when present. -/
def splitExp : List Char → List Char × Option (List Char)
  | [] => ([], none)
  | c :: rest =>
    if c = 'e' ∨ c = 'E' then ([], some rest)
    else
      let p := splitExp rest
      (c :: p.1, p.2)

/-- Parse an unsigned decimal mantissa: digits with at most one decimal
point and at least one digit overall; returns the combined digit value and
the number of fraction digits. -/
def parseMantissa (cs : List Char) : Option (ℕ × ℕ) :=
  if cs.count '.' = 0 then
    if !cs.isEmpty && cs.all Char.isDigit then some (digitsVal cs, 0) else none
  else if cs.count '.' = 1 then
    let ip := cs.takeWhile (fun c => c != '.')
    let fp := (cs.dropWhile (fun c => c != '.')).drop 1
    if (ip.all Char.isDigit && fp.all Char.isDigit) && (!ip.isEmpty || !fp.isEmpty) then
      some (digitsVal (ip ++ fp), fp.length)
    else none
  else none

/-- Parse an exponent: an optional sign and a nonempty digit string. -/
def parseExpInt (cs : List Char) : Option ℤ :=
  match cs with
  | '-' :: rest =>
    if !rest.isEmpty && rest.all Char.isDigit then some (-(digitsVal rest : ℤ)) else none
  | '+' :: rest =>
    if !rest.isEmpty && rest.all Char.isDigit then some ((digitsVal rest : ℤ)) else none
  | other =>
    if !other.isEmpty && other.all Char.isDigit then some ((digitsVal other : ℤ)) else none

/-- Magnitude of an unsigned finite literal with an optional exponent part,
as a numerator/denominator pair of naturals. -/
def parseFinite (cs : List Char) : Option (ℕ × ℕ) :=
  match splitExp cs with
  | (m, none) =>
    match parseMantissa m with
    | some p => some (p.1, 10 ^ p.2)
    | none => none
  | (m, some e) =>
    match parseMantissa m, parseExpInt e with
    | some p, some k =>
      if 0 ≤ k then some (p.1 * 10 ^ k.toNat, 10 ^ p.2)
      else some (p.1, 10 ^ (p.2 + (-k).toNat))
    | _, _ => none

/-- Smallest magnitude at which float64 round-to-nearest overflows to
infinity: the largest finite double is (2 - 2⁻⁵²)·2¹⁰²³ and magnitudes from
2¹⁰²⁴ - 2⁹⁷⁰ upward round to infinity. Spelled out as a numeral so that it
evaluates without large exponentiations; `float64OverflowNum_eq` checks the
value. -/
def float64OverflowNum : ℕ := 179769313486231580793728971405303415079934132710037826936173778980444968292764750946649017977587207096330286416692887910946555547851940402630657488671505820681908902000708383676273854845817711531764475730270069855571366959622842914819860834936475292719074168444365510704342711559699508093042880177904174497792

/-- Body of a Python float literal, sign already removed and case already
lowered: "inf"/"infinity" is the signed infinity, "nan" is the missing
marker (NaN), anything else is a finite decimal literal with an optional
exponent and digit-grouping underscores, whose value saturates to infinity
beyond the float64 range. In-range values are kept as exact rationals:
float64 rounding of representable magnitudes is not modelled. -/
def parseBody (pos : Bool) (body : List Char) : Option Cell :=
  if body = ['i', 'n', 'f'] ∨ body = ['i', 'n', 'f', 'i', 'n', 'i', 't', 'y'] then
    some (Cell.inf pos)
  else if body = ['n', 'a', 'n'] then
    some Cell.missing
  else
    match stripUnderscores none body with
    | none => none
    | some body' =>
      match parseFinite body' with
      | none => none
      | some p =>
        if float64OverflowNum * p.2 ≤ p.1 then some (Cell.inf pos)
        else some (Cell.num (if pos then mkRat p.1 p.2 else -(mkRat p.1 p.2)))

/-- Optional leading sign of the literal. -/
def parseSigned (cs : List Char) : Option Cell :=
  match cs with
  | [] => parseBody true []
  | c :: rest =>
    if c = '-' then parseBody false rest
    else if c = '+' then parseBody true rest
    else parseBody true (c :: rest)

/-- Remove leading and trailing whitespace. -/
def trimChars (cs : List Char) : List Char :=
  ((cs.dropWhile Char.isWhitespace).reverse.dropWhile Char.isWhitespace).reverse

/-- Lower-case every character. -/
def lowerChars (cs : List Char) : List Char := cs.map Char.toLower

/-- The per-cell string parse of `pd.to_numeric` (Python `float`):
surrounding whitespace is stripped and case is ignored. -/
def parseCellNum (s : String) : Option Cell :=
  parseSigned (lowerChars (trimChars s.data))

/-- `pd.to_numeric` acting on one cell: a string must parse — possibly to an
infinity ("inf", overflowing literals) or to the missing marker ("nan") —
and everything else (numbers, infinities, the missing marker) passes
through unchanged. -/
def Cell.tryToNum : Cell → Option Cell
  | .str s => parseCellNum s
  | c => some c

/-- The cell is not an infinity and, if textual, does not parse to an
infinity or to the missing marker: numeric coercion cannot create a new
missing or infinite cell from it. -/
def Cell.coercionSafe : Cell → Bool
  | .inf _ => false
  | .str s =>
    match parseCellNum s with
    | some (Cell.inf _) => false
    | some Cell.missing => false
    | _ => true
  | _ => true

/-- A DataFrame: ordered, named columns, each an ordered list of cells. -/
structure Table where
  cols : List (String × List Cell)
deriving DecidableEq, Repr

def Table.header (t : Table) : List String := t.cols.map Prod.fst

/-- Number of rows (length of the first column; all columns have this length
for a rectangular table). -/
def Table.nRows (t : Table) : ℕ :=
  match t.cols with
  | [] => 0
  | c :: _ => c.2.length

/-- The DataFrame invariant: every column has the same length `n`. -/
def Table.Rect (t : Table) (n : ℕ) : Prop := ∀ c ∈ t.cols, c.2.length = n

instance (t : Table) (n : ℕ) : Decidable (t.Rect n) :=
  inferInstanceAs (Decidable (∀ c ∈ t.cols, c.2.length = n))

/-- Row `i` of the table, one cell per column. -/
def Table.rowAt (t : Table) (i : ℕ) : List Cell :=
  t.cols.map (fun c => c.2.getD i Cell.missing)

/-- Every cell of the table is coercion-safe: no cell is an infinity and no
textual cell parses to an infinity or to the missing marker. -/
def Table.CoercionSafe (t : Table) : Prop :=
  ∀ c ∈ t.cols, ∀ x ∈ c.2, x.coercionSafe = true

instance (t : Table) : Decidable t.CoercionSafe :=
  inferInstanceAs (Decidable (∀ c ∈ t.cols, ∀ x ∈ c.2, x.coercionSafe = true))

/-- The column with the given name (first match). -/
def Table.getCol (t : Table) (name : String) : Option (List Cell) :=
  (t.cols.find? (fun c => c.1 == name)).map Prod.snd

/-- Row `i` is kept by `dropna(how='all')`: some column is non-missing there. -/
def Table.rowKept (t : Table) (i : ℕ) : Bool :=
  t.cols.any (fun c => !(c.2.getD i Cell.missing).isMissing)

/-- The keep/drop mask over all row indices. -/
def Table.rowMask (t : Table) : List Bool :=
  (List.range t.nRows).map (fun i => t.rowKept i)

/-- Keep the cells at the positions where the mask is `true`. -/
def applyMask : List Bool → List Cell → List Cell
  | b :: m, c :: l => if b then c :: applyMask m l else applyMask m l
  | _, _ => []

/-- The indices at which the mask is `true`, in order. -/
def keptIdxs : List Bool → List ℕ
  | [] => []
  | b :: m => if b then 0 :: (keptIdxs m).map (· + 1) else (keptIdxs m).map (· + 1)

/-- `df.dropna(how='all')`: drop each row in which every cell is missing. -/
def dropEmptyRows (t : Table) : Table :=
  ⟨t.cols.map (fun c => (c.1, applyMask t.rowMask c.2))⟩

/-- `df.dropna(axis=1, how='all')`: drop each column in which every cell is
missing. -/
def dropEmptyCols (t : Table) : Table :=
  ⟨t.cols.filter (fun c => c.2.any (fun x => !x.isMissing))⟩

/-- `df.replace([float('inf'), float('-inf')], pd.NA)`. -/
def replaceInfs (t : Table) : Table :=
  ⟨t.cols.map (fun c => (c.1, c.2.map Cell.deInf))⟩

/-- A column has pandas dtype `object` exactly when it holds a string cell. -/
def isObjectCol (l : List Cell) : Bool := l.any Cell.isStr

/-- All-or-nothing traversal: `some` of the pointwise results if every cell
succeeds, `none` as soon as one fails. -/
def mapMOpt (f : Cell → Option Cell) : List Cell → Option (List Cell)
  | [] => some []
  | c :: l =>
    match f c, mapMOpt f l with
    | some c', some l' => some (c' :: l')
    | _, _ => none

/-- `pd.to_numeric(col, errors='ignore')` on an object-dtype column: replace
the column by the parsed cells if every cell parses, otherwise keep the
column unchanged; non-object columns are not touched. -/
def coerceCol (l : List Cell) : List Cell :=
  if isObjectCol l then
    match mapMOpt Cell.tryToNum l with
    | some l' => l'
    | none => l
  else l

def coerceCols (t : Table) : Table :=
  ⟨t.cols.map (fun c => (c.1, coerceCol c.2))⟩

/-- `process_data`: drop all-missing rows, then all-missing columns, replace
infinities by the missing marker, then coerce numeric-looking object columns
(visualization.py lines 23-44). -/
def process_data (t : Table) : Table :=
  coerceCols (replaceInfs (dropEmptyCols (dropEmptyRows t)))

/-- `df.empty`: some axis has length zero. -/
def Table.isEmptyTable (t : Table) : Bool :=
  t.cols.isEmpty || t.nRows == 0

def msgEmptyInput : String := "The uploaded file is empty"

def msgInsufficientColumns : String := "File must contain at least two columns"

def msgDuplicateColumns : String := "File contains duplicate column names"

/-- `validate_data` (visualization.py lines 8-21): returns the validity flag
and the error message. -/
def validate_data (t : Table) : Bool × String :=
  if t.isEmptyTable then (false, msgEmptyInput)
  else if t.cols.length < 2 then (false, msgInsufficientColumns)
  else if !(t.header.dedup == t.header) then (false, msgDuplicateColumns)
  else (true, "")

/-- The keys of the `chart_types` dictionary. -/
def chartKinds : List String := ["Sunburst", "Treemap", "Icicle"]

/-- The settings dictionary handed to `create_chart`. `none` models a missing
key or Python `None`. -/
structure ChartSettings where
  chart_type : String
  path_columns : List String
  values_column : Option String
  color_column : Option String
  color_scheme : Option String
  width : ℕ
  height : ℕ
deriving DecidableEq, Repr

/-- The three error shapes `create_chart` can raise, tagged with the message
of the `ValueError`. -/
inductive ChartError where
  | MissingHierarchy
  | UnknownChartKind (kind : String)
  | ColumnNotFound (msg : String)
deriving DecidableEq, Repr

/-- The keyword arguments assembled for the plotly chart constructor, plus
which constructor was selected. -/
structure ChartParams where
  chart_type : String
  data_frame : Table
  path : List String
  width : ℕ
  height : ℕ
  values : Option String
  color : Option String
  color_continuous_scale : Option String
deriving DecidableEq, Repr

/-- Python truthiness of `settings.get(key)` for a string-valued key. -/
def optTruthy : Option String → Bool
  | none => false
  | some s => !s.isEmpty

/-- `settings.get('values_column') and settings['values_column'] != 'None'`. -/
def useValues (s : ChartSettings) : Bool :=
  optTruthy s.values_column && (s.values_column.getD "") != "None"

/-- `settings.get('color_column') and settings['color_column'] != 'None'`. -/
def useColor (s : ChartSettings) : Bool :=
  optTruthy s.color_column && (s.color_column.getD "") != "None"

/-- `settings.get('color_scheme') and settings['color_scheme'] != 'Default'`. -/
def useScheme (s : ChartSettings) : Bool :=
  optTruthy s.color_scheme && (s.color_scheme.getD "") != "Default"

def msgValuesNotFound (v : String) : String :=
  "Values column '" ++ v ++ "' not found in data"

def msgColorNotFound (v : String) : String :=
  "Color column '" ++ v ++ "' not found in data"

def msgColumnsNotFound (missing_cols : List String) : String :=
  "Columns not found in data: " ++ String.intercalate ", " missing_cols

/-- `DataVisualizer.create_chart` (visualization.py lines 70-122): the five
sequential validation checks followed by parameter assembly. The raised
`ValueError`s become `ChartError`s. -/
def DataVisualizer.create_chart (df : Table) (s : ChartSettings) :
    Except ChartError ChartParams :=
  if s.path_columns.isEmpty then
    .error .MissingHierarchy
  else if s.chart_type ∉ chartKinds then
    .error (.UnknownChartKind s.chart_type)
  else if ¬ (s.path_columns.filter (fun c => decide (c ∉ df.header))).isEmpty then
    .error (.ColumnNotFound
      (msgColumnsNotFound (s.path_columns.filter (fun c => decide (c ∉ df.header)))))
  else if useValues s = true ∧ s.values_column.getD "" ∉ df.header then
    .error (.ColumnNotFound (msgValuesNotFound (s.values_column.getD "")))
  else if useColor s = true ∧ s.color_column.getD "" ∉ df.header then
    .error (.ColumnNotFound (msgColorNotFound (s.color_column.getD "")))
  else
      .ok { chart_type := s.chart_type
            data_frame := df
            path := s.path_columns
            width := s.width
            height := s.height
            values := if useValues s then s.values_column else none
            color := if useColor s then s.color_column else none
            color_continuous_scale := if useScheme s then s.color_scheme else none }

instance : DecidableEq (Except ChartError ChartParams) := fun x y =>
  match x, y with
  | .error a, .error b => decidable_of_iff (a = b) (by simp)
  | .ok a, .ok b => decidable_of_iff (a = b) (by simp)
  | .error _, .ok _ => isFalse (fun h => Except.noConfusion h)
  | .ok _, .error _ => isFalse (fun h => Except.noConfusion h)

/-! ### Basic lemmas about cells and the all-or-nothing traversal -/

theorem any_not_eq_not_all {α : Type} (l : List α) (p : α → Bool) :
    l.any (fun x => !(p x)) = !(l.all p) := by
  induction l with
  | nil => rfl
  | cons a l ih => simp [List.any_cons, List.all_cons, ih, Bool.not_and]

theorem all_map_g {α β : Type} (l : List α) (f : α → β) (p : β → Bool) :
    (l.map f).all p = l.all (p ∘ f) := by
  induction l with
  | nil => rfl
  | cons a l ih => simp [List.all_cons, ih]

theorem float64OverflowNum_eq : float64OverflowNum = 2 ^ 1024 - 2 ^ 970 := by
  norm_num [float64OverflowNum]

theorem parseBody_isStr {pos : Bool} {body : List Char} {y : Cell}
    (h : parseBody pos body = some y) : y.isStr = false := by
  unfold parseBody at h
  split at h
  · cases h; rfl
  · split at h
    · cases h; rfl
    · split at h
      · exact Option.noConfusion h
      · split at h
        · exact Option.noConfusion h
        · split at h
          · cases h; rfl
          · cases h; rfl

theorem parseSigned_eq (cs : List Char) :
    ∃ b body, parseSigned cs = parseBody b body := by
  cases cs with
  | nil => exact ⟨true, [], rfl⟩
  | cons c rest =>
    show ∃ b body,
      (if c = '-' then parseBody false rest
       else if c = '+' then parseBody true rest
       else parseBody true (c :: rest)) = parseBody b body
    by_cases h1 : c = '-'
    · rw [if_pos h1]
      exact ⟨false, rest, rfl⟩
    · rw [if_neg h1]
      by_cases h2 : c = '+'
      · rw [if_pos h2]
        exact ⟨true, rest, rfl⟩
      · rw [if_neg h2]
        exact ⟨true, c :: rest, rfl⟩

theorem parseSigned_isStr {cs : List Char} {y : Cell} (h : parseSigned cs = some y) :
    y.isStr = false := by
  obtain ⟨b, body, he⟩ := parseSigned_eq cs
  rw [he] at h
  exact parseBody_isStr h

theorem parseCellNum_isStr {s : String} {y : Cell} (h : parseCellNum s = some y) :
    y.isStr = false :=
  parseSigned_isStr h

theorem tryToNum_isStr {x y : Cell} (h : Cell.tryToNum x = some y) :
    y.isStr = false := by
  cases x with
  | str s =>
    simp only [Cell.tryToNum] at h
    exact parseCellNum_isStr h
  | num q => simp only [Cell.tryToNum, Option.some.injEq] at h; subst h; rfl
  | inf b => simp only [Cell.tryToNum, Option.some.injEq] at h; subst h; rfl
  | missing => simp only [Cell.tryToNum, Option.some.injEq] at h; subst h; rfl

theorem coercionSafe_str_eq (s : String) :
    (Cell.str s).coercionSafe =
      (match parseCellNum s with
       | some (Cell.inf _) => false
       | some Cell.missing => false
       | _ => true) := rfl

theorem coercionSafe_isInf {x : Cell} (h : x.coercionSafe = true) : x.isInf = false := by
  cases x with
  | inf b => exact absurd h (by simp [Cell.coercionSafe])
  | str s => rfl
  | num q => rfl
  | missing => rfl

theorem tryToNum_safe_isMissing {x y : Cell} (hs : x.coercionSafe = true)
    (h : Cell.tryToNum x = some y) : y.isMissing = x.isMissing := by
  cases x with
  | str s =>
    simp only [Cell.tryToNum] at h
    rw [coercionSafe_str_eq, h] at hs
    cases y with
    | num q => rfl
    | str s2 => rfl
    | inf b => exact absurd hs (by simp)
    | missing => exact absurd hs (by simp)
  | num q => simp only [Cell.tryToNum, Option.some.injEq] at h; subst h; rfl
  | inf b => simp only [Cell.tryToNum, Option.some.injEq] at h; subst h; rfl
  | missing => simp only [Cell.tryToNum, Option.some.injEq] at h; subst h; rfl

theorem tryToNum_safe_isInf {x y : Cell} (hs : x.coercionSafe = true)
    (h : Cell.tryToNum x = some y) : y.isInf = false := by
  cases x with
  | str s =>
    simp only [Cell.tryToNum] at h
    rw [coercionSafe_str_eq, h] at hs
    cases y with
    | num q => rfl
    | str s2 => rfl
    | inf b => exact absurd hs (by simp)
    | missing => rfl
  | num q => simp only [Cell.tryToNum, Option.some.injEq] at h; subst h; rfl
  | inf b => exact absurd hs (by simp [Cell.coercionSafe])
  | missing => simp only [Cell.tryToNum, Option.some.injEq] at h; subst h; rfl

theorem deInf_isInf (x : Cell) : (Cell.deInf x).isInf = false := by
  cases x <;> rfl

theorem deInf_eq_self {x : Cell} (h : x.isInf = false) : Cell.deInf x = x := by
  cases x <;> first | rfl | exact absurd h (by simp [Cell.isInf])

theorem mapMOpt_length {f : Cell → Option Cell} :
    ∀ {l l' : List Cell}, mapMOpt f l = some l' → l'.length = l.length := by
  intro l
  induction l with
  | nil =>
    intro l' h
    simp only [mapMOpt, Option.some.injEq] at h
    subst h; rfl
  | cons c l ih =>
    intro l' h
    simp only [mapMOpt] at h
    cases hfc : f c <;> rw [hfc] at h
    · exact Option.noConfusion h
    · cases hml : mapMOpt f l <;> rw [hml] at h
      · exact Option.noConfusion h
      · simp only [Option.some.injEq] at h
        subst h
        simp [ih hml]

theorem mapMOpt_get? {f : Cell → Option Cell} :
    ∀ {l l' : List Cell}, mapMOpt f l = some l' →
      ∀ k, l'.get? k = (l.get? k).bind f := by
  intro l
  induction l with
  | nil =>
    intro l' h k
    simp only [mapMOpt, Option.some.injEq] at h
    subst h
    simp
  | cons c l ih =>
    intro l' h k
    simp only [mapMOpt] at h
    cases hfc : f c <;> rw [hfc] at h
    · exact Option.noConfusion h
    · cases hml : mapMOpt f l <;> rw [hml] at h
      · exact Option.noConfusion h
      · simp only [Option.some.injEq] at h
        subst h
        cases k with
        | zero => simp [hfc]
        | succ k => simpa using ih hml k

theorem mapMOpt_mem {f : Cell → Option Cell} :
    ∀ {l l' : List Cell}, mapMOpt f l = some l' →
      ∀ {y}, y ∈ l' → ∃ x ∈ l, f x = some y := by
  intro l
  induction l with
  | nil =>
    intro l' h y hy
    simp only [mapMOpt, Option.some.injEq] at h
    subst h
    exact absurd hy (List.not_mem_nil y)
  | cons c l ih =>
    intro l' h y hy
    simp only [mapMOpt] at h
    cases hfc : f c <;> rw [hfc] at h
    · exact Option.noConfusion h
    · cases hml : mapMOpt f l <;> rw [hml] at h
      · exact Option.noConfusion h
      · simp only [Option.some.injEq] at h
        subst h
        rcases List.mem_cons.mp hy with rfl | hy'
        · exact ⟨c, List.mem_cons_self c l, hfc⟩
        · obtain ⟨x, hx, hfx⟩ := ih hml hy'
          exact ⟨x, List.mem_cons_of_mem c hx, hfx⟩

theorem mapMOpt_eq_some_map {f : Cell → Option Cell} :
    ∀ {l : List Cell}, (∀ x ∈ l, (f x).isSome) →
      mapMOpt f l = some (l.map (fun x => (f x).getD x)) := by
  intro l
  induction l with
  | nil => intro _; rfl
  | cons c l ih =>
    intro h
    obtain ⟨c', hfc⟩ := Option.isSome_iff_exists.mp (h c (List.mem_cons_self c l))
    have hrec := ih (fun x hx => h x (List.mem_cons_of_mem c hx))
    simp [mapMOpt, hfc, hrec]

theorem mapMOpt_eq_none {f : Cell → Option Cell} {l : List Cell} {x : Cell}
    (hx : x ∈ l) (hfx : f x = none) : mapMOpt f l = none := by
  induction l with
  | nil => exact absurd hx (List.not_mem_nil x)
  | cons c l ih =>
    rcases List.mem_cons.mp hx with rfl | hx'
    · simp [mapMOpt, hfx]
    · cases hfc : f c <;> simp [mapMOpt, hfc, ih hx']

/-! ### Lemmas about the row mask machinery -/

theorem mem_keptIdxs_getD : ∀ {m : List Bool} {i : ℕ},
    i ∈ keptIdxs m → m.getD i false = true := by
  intro m
  induction m with
  | nil => intro i h; exact absurd h (List.not_mem_nil i)
  | cons b m ih =>
    intro i h
    cases b with
    | true =>
      simp only [keptIdxs, if_pos] at h
      rcases List.mem_cons.mp h with rfl | h'
      · rfl
      · obtain ⟨j, hj, rfl⟩ := List.mem_map.mp h'
        simpa using ih hj
    | false =>
      simp only [keptIdxs, if_neg] at h
      obtain ⟨j, hj, rfl⟩ := List.mem_map.mp h
      simpa using ih hj

theorem mem_keptIdxs_lt : ∀ {m : List Bool} {i : ℕ},
    i ∈ keptIdxs m → i < m.length := by
  intro m
  induction m with
  | nil => intro i h; exact absurd h (List.not_mem_nil i)
  | cons b m ih =>
    intro i h
    cases b with
    | true =>
      simp only [keptIdxs, if_pos] at h
      rcases List.mem_cons.mp h with rfl | h'
      · simp
      · obtain ⟨j, hj, rfl⟩ := List.mem_map.mp h'
        simpa using ih hj
    | false =>
      simp only [keptIdxs, if_neg] at h
      obtain ⟨j, hj, rfl⟩ := List.mem_map.mp h
      simpa using ih hj

theorem mem_keptIdxs_of : ∀ {m : List Bool} {i : ℕ},
    i < m.length → m.getD i false = true → i ∈ keptIdxs m := by
  intro m
  induction m with
  | nil => intro i h _; exact absurd h (by simp)
  | cons b m ih =>
    intro i hlt hget
    cases i with
    | zero =>
      have hb : b = true := hget
      simp [keptIdxs, hb]
    | succ j =>
      have hj := ih (Nat.lt_of_succ_lt_succ hlt) hget
      cases b <;> simp [keptIdxs] <;> exact hj

theorem applyMask_eq_map : ∀ {m : List Bool} {l : List Cell},
    l.length = m.length →
    applyMask m l = (keptIdxs m).map (fun i => l.getD i Cell.missing) := by
  intro m
  induction m with
  | nil =>
    intro l h
    cases l with
    | nil => rfl
    | cons c l => exact absurd h (by simp)
  | cons b m ih =>
    intro l h
    cases l with
    | nil => exact absurd h (by simp)
    | cons c l =>
      have hlen : l.length = m.length := by simpa using h
      cases b with
      | true =>
        simp only [applyMask, if_pos, keptIdxs, List.map_cons, List.map_map]
        rw [ih hlen]
        rfl
      | false =>
        simp only [applyMask, if_neg, keptIdxs, List.map_map, Bool.false_eq_true,
          not_false_eq_true]
        rw [ih hlen]
        rfl

theorem length_applyMask {m : List Bool} {l : List Cell} (h : l.length = m.length) :
    (applyMask m l).length = (keptIdxs m).length := by
  rw [applyMask_eq_map h, List.length_map]

theorem mem_applyMask : ∀ {m : List Bool} {l : List Cell} {x : Cell},
    x ∈ applyMask m l → x ∈ l := by
  intro m
  induction m with
  | nil => intro l x h; exact absurd h (by cases l <;> simp [applyMask])
  | cons b m ih =>
    intro l x h
    cases l with
    | nil => exact absurd h (by simp [applyMask])
    | cons c l =>
      cases b with
      | true =>
        simp only [applyMask, if_pos] at h
        rcases List.mem_cons.mp h with rfl | h'
        · exact List.mem_cons_self x l
        · exact List.mem_cons_of_mem c (ih h')
      | false =>
        simp only [applyMask, Bool.false_eq_true, if_false] at h
        exact List.mem_cons_of_mem c (ih h)

theorem applyMask_all_true : ∀ {m : List Bool} {l : List Cell},
    l.length = m.length → (∀ b ∈ m, b = true) → applyMask m l = l := by
  intro m
  induction m with
  | nil =>
    intro l h _
    cases l with
    | nil => rfl
    | cons c l => exact absurd h (by simp)
  | cons b m ih =>
    intro l h hall
    cases l with
    | nil => exact absurd h (by simp)
    | cons c l =>
      have hb : b = true := hall b (List.mem_cons_self b m)
      have hlen : l.length = m.length := by simpa using h
      simp [applyMask, hb, ih hlen (fun x hx => hall x (List.mem_cons_of_mem b hx))]

/-! ### Lemmas about column coercion -/

theorem coerceCol_length (l : List Cell) : (coerceCol l).length = l.length := by
  unfold coerceCol
  by_cases h : isObjectCol l = true
  · rw [if_pos h]
    cases hm : mapMOpt Cell.tryToNum l with
    | none => rfl
    | some l' => exact mapMOpt_length hm
  · rw [if_neg h]

theorem mem_coerceCol {l : List Cell} {y : Cell} (hy : y ∈ coerceCol l) :
    y ∈ l ∨ ∃ x ∈ l, Cell.tryToNum x = some y := by
  unfold coerceCol at hy
  by_cases h : isObjectCol l = true
  · rw [if_pos h] at hy
    cases hm : mapMOpt Cell.tryToNum l with
    | none => rw [hm] at hy; exact Or.inl hy
    | some l' => rw [hm] at hy; exact Or.inr (mapMOpt_mem hm hy)
  · rw [if_neg h] at hy; exact Or.inl hy

theorem coerceCol_get?_isMissing_safe {l : List Cell}
    (hs : ∀ x ∈ l, x.coercionSafe = true) (k : ℕ) :
    ((coerceCol l).get? k).map Cell.isMissing = (l.get? k).map Cell.isMissing := by
  unfold coerceCol
  by_cases h : isObjectCol l = true
  · rw [if_pos h]
    cases hm : mapMOpt Cell.tryToNum l with
    | none => rfl
    | some l' =>
      have hg : l'.get? k = (l.get? k).bind Cell.tryToNum := mapMOpt_get? hm k
      cases hk : l.get? k with
      | none => rw [hg, hk]; rfl
      | some x =>
        have hg' : l'.get? k = Cell.tryToNum x := by rw [hg, hk]; rfl
        cases hfx : Cell.tryToNum x with
        | none =>
          exfalso
          rw [hfx] at hg'
          have hlen := mapMOpt_length hm
          have h1 : l'.length ≤ k := List.get?_eq_none.mp hg'
          have h2 : l.get? k = none := List.get?_eq_none.mpr (by omega)
          rw [h2] at hk
          exact Option.noConfusion hk
        | some y =>
          rw [hfx] at hg'
          rw [hg']
          simp [tryToNum_safe_isMissing (hs x (List.get?_mem hk)) hfx]
  · rw [if_neg h]

theorem coerceCol_get?_missing {l : List Cell} {k : ℕ}
    (h : l.get? k = some Cell.missing) :
    (coerceCol l).get? k = some Cell.missing := by
  unfold coerceCol
  by_cases ho : isObjectCol l = true
  · rw [if_pos ho]
    cases hm : mapMOpt Cell.tryToNum l with
    | none => exact h
    | some l' =>
      have hg : l'.get? k = (l.get? k).bind Cell.tryToNum := mapMOpt_get? hm k
      rw [h] at hg
      exact hg.trans rfl
  · rw [if_neg ho]
    exact h

theorem any_nonmissing_congr {l₁ l₂ : List Cell}
    (h : ∀ k, (l₁.get? k).map Cell.isMissing = (l₂.get? k).map Cell.isMissing) :
    l₁.any (fun x => !x.isMissing) = l₂.any (fun x => !x.isMissing) := by
  have aux : ∀ (a b : List Cell),
      (∀ k, (a.get? k).map Cell.isMissing = (b.get? k).map Cell.isMissing) →
      a.any (fun x => !x.isMissing) = true → b.any (fun x => !x.isMissing) = true := by
    intro a b hab ha
    obtain ⟨x, hx, hpx⟩ := List.any_eq_true.mp ha
    obtain ⟨k, hk⟩ := List.mem_iff_get?.mp hx
    have hk2 := hab k
    rw [hk] at hk2
    cases hbk : b.get? k with
    | none => rw [hbk] at hk2; exact absurd hk2 (by simp)
    | some y =>
      rw [hbk] at hk2
      simp only [Option.map_some', Option.some.injEq] at hk2
      refine List.any_eq_true.mpr ⟨y, List.get?_mem hbk, ?_⟩
      rw [← hk2]
      exact hpx
  by_cases h1 : l₁.any (fun x => !x.isMissing) = true
  · rw [h1, aux l₁ l₂ h h1]
  · by_cases h2 : l₂.any (fun x => !x.isMissing) = true
    · exact absurd (aux l₂ l₁ (fun k => (h k).symm) h2) h1
    · rw [Bool.not_eq_true] at h1 h2
      rw [h1, h2]

theorem coerceCol_any_nonmissing {l : List Cell}
    (hs : ∀ x ∈ l, x.coercionSafe = true) :
    (coerceCol l).any (fun x => !x.isMissing) = l.any (fun x => !x.isMissing) :=
  any_nonmissing_congr (coerceCol_get?_isMissing_safe hs)

theorem coerceCol_idem (l : List Cell) : coerceCol (coerceCol l) = coerceCol l := by
  by_cases h : isObjectCol l = true
  · cases hm : mapMOpt Cell.tryToNum l with
    | none =>
      have hcl : coerceCol l = l := by unfold coerceCol; rw [if_pos h, hm]
      rw [hcl]
      exact hcl
    | some l' =>
      have hcl : coerceCol l = l' := by unfold coerceCol; rw [if_pos h, hm]
      rw [hcl]
      have hobj : isObjectCol l' = false := by
        unfold isObjectCol
        refine List.any_eq_false.mpr ?_
        intro y hy
        obtain ⟨x, -, hfx⟩ := mapMOpt_mem hm hy
        simp [tryToNum_isStr hfx]
      unfold coerceCol
      rw [if_neg (by simp [hobj])]
  · have hcl : coerceCol l = l := by unfold coerceCol; rw [if_neg h]
    rw [hcl]
    exact hcl

/-! ### Table-level lemmas -/

theorem rowKept_eq (t : Table) (i : ℕ) :
    t.rowKept i = !((t.rowAt i).all Cell.isMissing) := by
  unfold Table.rowKept Table.rowAt
  rw [all_map_g, ← any_not_eq_not_all]
  rfl

theorem nRows_rect {t : Table} {n : ℕ} (h : t.Rect n) (hne : t.cols ≠ []) :
    t.nRows = n := by
  cases hc : t.cols with
  | nil => exact absurd hc hne
  | cons c cs =>
    have hmem : c ∈ t.cols := by rw [hc]; exact List.mem_cons_self c cs
    unfold Table.nRows
    rw [hc]
    exact h c hmem

theorem rowMask_length (t : Table) : t.rowMask.length = t.nRows := by
  unfold Table.rowMask
  rw [List.length_map, List.length_range]

theorem rowMask_getD {t : Table} {i : ℕ} (h : i < t.nRows) :
    t.rowMask.getD i false = t.rowKept i := by
  unfold Table.rowMask
  rw [List.getD_eq_get?, List.get?_map, List.get?_range h]
  rfl

theorem process_cols (t : Table) :
    (process_data t).cols =
      ((t.cols.map (fun c => (c.1, applyMask t.rowMask c.2))).filter
          (fun c => c.2.any (fun x => !x.isMissing))).map
        (fun c => (c.1, coerceCol (c.2.map Cell.deInf))) := by
  unfold process_data coerceCols replaceInfs dropEmptyCols dropEmptyRows
  simp only [List.map_map]
  rfl

theorem find_transformed_none (m : List Bool) (L : List (String × List Cell))
    (name : String) (h : name ∉ L.map Prod.fst) :
    (((L.map (fun c => (c.1, applyMask m c.2))).filter
        (fun c => c.2.any (fun x => !x.isMissing))).map
      (fun c => (c.1, coerceCol (c.2.map Cell.deInf)))).find?
      (fun c => c.1 == name) = none := by
  apply List.find?_eq_none.mpr
  intro x hx
  obtain ⟨y, hy, rfl⟩ := List.mem_map.mp hx
  have hy' := List.mem_of_mem_filter hy
  obtain ⟨z, hz, rfl⟩ := List.mem_map.mp hy'
  have hz1 : z.1 ∈ L.map Prod.fst := List.mem_map.mpr ⟨z, hz, rfl⟩
  intro hb
  exact h (beq_iff_eq.mp hb ▸ hz1)

theorem find_transformed (m : List Bool) :
    ∀ (L : List (String × List Cell)) (name : String) (cells : List Cell),
      (name, cells) ∈ L → (L.map Prod.fst).Nodup →
      ((((L.map (fun c => (c.1, applyMask m c.2))).filter
            (fun c => c.2.any (fun x => !x.isMissing))).map
          (fun c => (c.1, coerceCol (c.2.map Cell.deInf)))).find?
        (fun c => c.1 == name)).map Prod.snd =
      if (applyMask m cells).any (fun x => !x.isMissing) then
        some (coerceCol ((applyMask m cells).map Cell.deInf))
      else none := by
  intro L
  induction L with
  | nil => intro name cells hmem _; exact absurd hmem (List.not_mem_nil _)
  | cons c0 L ih =>
    intro name cells hmem hnd
    rcases List.mem_cons.mp hmem with heq | hmem'
    · subst heq
      have hname : name ∉ L.map Prod.fst := by
        have := (List.nodup_cons.mp hnd).1
        simpa using this
      simp only [List.map_cons, List.filter_cons]
      by_cases hp : (applyMask m cells).any (fun x => !x.isMissing) = true
      · rw [if_pos (by simpa using hp), if_pos hp]
        rw [List.map_cons]
        rw [List.find?_cons_of_pos _ (by simp)]
        rfl
      · rw [if_neg (by simpa using hp), if_neg hp]
        rw [find_transformed_none m L name hname]
        rfl
    · have hc0 : c0.1 ≠ name := by
        have h1 : c0.1 ∉ L.map Prod.fst := by
          have := (List.nodup_cons.mp hnd).1
          simpa using this
        have h2 : name ∈ L.map Prod.fst := List.mem_map.mpr ⟨(name, cells), hmem', rfl⟩
        intro h
        rw [h] at h1
        exact h1 h2
      have hnd' : (L.map Prod.fst).Nodup := (List.nodup_cons.mp hnd).2
      simp only [List.map_cons, List.filter_cons]
      by_cases hp : (applyMask m c0.2).any (fun x => !x.isMissing) = true
      · rw [if_pos (by simpa using hp)]
        rw [List.map_cons]
        rw [List.find?_cons_of_neg _ (by simpa using hc0)]
        exact ih name cells hmem' hnd'
      · rw [if_neg (by simpa using hp)]
        exact ih name cells hmem' hnd'

theorem getCol_process {t : Table} (hnd : t.header.Nodup) {name : String}
    {cells : List Cell} (hmem : (name, cells) ∈ t.cols) :
    (process_data t).getCol name =
      if (applyMask t.rowMask cells).any (fun x => !x.isMissing) then
        some (coerceCol ((applyMask t.rowMask cells).map Cell.deInf))
      else none := by
  unfold Table.getCol
  rw [process_cols]
  exact find_transformed t.rowMask t.cols name cells hmem hnd

theorem applyMask_rowMask_any {t : Table} {n : ℕ} (hrect : t.Rect n)
    {name : String} {cells : List Cell} (hmem : (name, cells) ∈ t.cols) :
    (applyMask t.rowMask cells).any (fun x => !x.isMissing) =
      cells.any (fun x => !x.isMissing) := by
  have hne : t.cols ≠ [] := by
    intro h
    rw [h] at hmem
    exact List.not_mem_nil _ hmem
  have hn : t.nRows = n := nRows_rect hrect hne
  have hcl : cells.length = n := hrect (name, cells) hmem
  have hlen : cells.length = t.rowMask.length := by rw [rowMask_length, hn, hcl]
  rw [Bool.eq_iff_iff, List.any_eq_true, List.any_eq_true]
  constructor
  · rintro ⟨x, hx, hpx⟩
    exact ⟨x, mem_applyMask hx, hpx⟩
  · rintro ⟨x, hx, hpx⟩
    obtain ⟨k, hk⟩ := List.mem_iff_get?.mp hx
    have hklt : k < cells.length := by
      by_contra hc
      rw [List.get?_eq_none.mpr (le_of_not_lt hc)] at hk
      exact Option.noConfusion hk
    have hgetD : cells.getD k Cell.missing = x := by
      rw [List.getD_eq_get?, hk]
      rfl
    have hmask : t.rowMask.getD k false = true := by
      rw [rowMask_getD (by omega)]
      unfold Table.rowKept
      refine List.any_eq_true.mpr ⟨(name, cells), hmem, ?_⟩
      show (!((cells.getD k Cell.missing).isMissing)) = true
      rw [hgetD]
      exact hpx
    have hkm : k ∈ keptIdxs t.rowMask :=
      mem_keptIdxs_of (by rw [← hlen]; exact hklt) hmask
    refine ⟨x, ?_, hpx⟩
    rw [applyMask_eq_map hlen]
    exact List.mem_map.mpr ⟨k, hkm, hgetD⟩

theorem process_header {t : Table} {n : ℕ} (hrect : t.Rect n) :
    (process_data t).header =
      (t.cols.filter (fun c => !(c.2.all Cell.isMissing))).map Prod.fst := by
  unfold Table.header
  rw [process_cols, List.map_map, List.filter_map, List.map_map]
  have hfilter : t.cols.filter
      ((fun c => c.2.any (fun x => !x.isMissing)) ∘
        (fun c : String × List Cell => (c.1, applyMask t.rowMask c.2))) =
      t.cols.filter (fun c => !(c.2.all Cell.isMissing)) := by
    apply List.filter_congr
    intro c hc
    obtain ⟨nm, cl⟩ := c
    have h1 := applyMask_rowMask_any hrect hc
    rw [Function.comp_apply]
    rw [show ((nm, applyMask t.rowMask cl) : String × List Cell).2 =
      applyMask t.rowMask cl from rfl]
    rw [h1, any_not_eq_not_all]
  rw [hfilter]
  rfl

/-! ### The output of `process_data` is stable under each cleaning step -/

theorem safe_masked_deInf {t : Table} (hsafe : t.CoercionSafe)
    {c : String × List Cell} (hc : c ∈ t.cols) :
    ∀ y ∈ (applyMask t.rowMask c.2).map Cell.deInf, y.coercionSafe = true := by
  intro y hy
  obtain ⟨x, hx, rfl⟩ := List.mem_map.mp hy
  have hxs := hsafe c hc x (mem_applyMask hx)
  rw [deInf_eq_self (coercionSafe_isInf hxs)]
  exact hxs

theorem process_no_inf {t : Table} (hsafe : t.CoercionSafe) :
    ∀ c ∈ (process_data t).cols, ∀ x ∈ c.2, x.isInf = false := by
  intro c hc x hx
  rw [process_cols] at hc
  obtain ⟨c', hc', rfl⟩ := List.mem_map.mp hc
  obtain ⟨c0, hc0, rfl⟩ := List.mem_map.mp (List.mem_of_mem_filter hc')
  have hsafe' := safe_masked_deInf hsafe hc0
  rcases mem_coerceCol hx with hx' | ⟨z, hz, hfz⟩
  · exact coercionSafe_isInf (hsafe' x hx')
  · exact tryToNum_safe_isInf (hsafe' z hz) hfz

theorem process_cols_nonmissing {t : Table} (hsafe : t.CoercionSafe) :
    ∀ c ∈ (process_data t).cols, c.2.any (fun x => !x.isMissing) = true := by
  intro c hc
  rw [process_cols] at hc
  obtain ⟨c', hc', rfl⟩ := List.mem_map.mp hc
  have hp := List.of_mem_filter hc'
  obtain ⟨c0, hc0, rfl⟩ := List.mem_map.mp (List.mem_of_mem_filter hc')
  show (coerceCol ((applyMask t.rowMask c0.2).map Cell.deInf)).any (fun x => !x.isMissing) = true
  rw [coerceCol_any_nonmissing (safe_masked_deInf hsafe hc0)]
  obtain ⟨x, hx, hpx⟩ := List.any_eq_true.mp hp
  refine List.any_eq_true.mpr ⟨Cell.deInf x, List.mem_map.mpr ⟨x, hx, rfl⟩, ?_⟩
  rw [deInf_eq_self (coercionSafe_isInf (hsafe c0 hc0 x (mem_applyMask hx)))]
  exact hpx

theorem process_rect {t : Table} {n : ℕ} (hrect : t.Rect n) :
    (process_data t).Rect ((keptIdxs t.rowMask).length) := by
  intro c hc
  rw [process_cols] at hc
  obtain ⟨c', hc', rfl⟩ := List.mem_map.mp hc
  obtain ⟨c0, hc0, rfl⟩ := List.mem_map.mp (List.mem_of_mem_filter hc')
  have hne : t.cols ≠ [] := fun h => List.not_mem_nil _ (h ▸ hc0)
  have hlen : c0.2.length = t.rowMask.length := by
    rw [rowMask_length, nRows_rect hrect hne, hrect c0 hc0]
  show (coerceCol ((applyMask t.rowMask c0.2).map Cell.deInf)).length =
    (keptIdxs t.rowMask).length
  rw [coerceCol_length, List.length_map, length_applyMask hlen]

theorem process_rowKept {t : Table} {n : ℕ} (hrect : t.Rect n) (hsafe : t.CoercionSafe) :
    ∀ i, i < (process_data t).nRows → (process_data t).rowKept i = true := by
  intro i hi
  cases hpc : (process_data t).cols with
  | nil =>
    exfalso
    have h0 : (process_data t).nRows = 0 := by
      unfold Table.nRows
      rw [hpc]
    omega
  | cons chead ctail =>
    have hUne : (process_data t).cols ≠ [] := by rw [hpc]; exact List.cons_ne_nil _ _
    have htne : t.cols ≠ [] := by
      intro h
      apply hUne
      rw [process_cols, h]
      rfl
    have hU : (process_data t).nRows = (keptIdxs t.rowMask).length :=
      nRows_rect (process_rect hrect) hUne
    rw [hU] at hi
    obtain ⟨j, hj⟩ : ∃ j, (keptIdxs t.rowMask).get? i = some j := by
      cases hg : (keptIdxs t.rowMask).get? i with
      | none => exact absurd (List.get?_eq_none.mp hg) (by omega)
      | some j => exact ⟨j, rfl⟩
    have hjmem : j ∈ keptIdxs t.rowMask := List.get?_mem hj
    have hjlt : j < t.rowMask.length := mem_keptIdxs_lt hjmem
    have hjtrue : t.rowMask.getD j false = true := mem_keptIdxs_getD hjmem
    have hjrows : j < t.nRows := by rw [← rowMask_length]; exact hjlt
    have hrk : t.rowKept j = true := by rw [← rowMask_getD hjrows]; exact hjtrue
    unfold Table.rowKept at hrk
    obtain ⟨c0, hc0, hcell⟩ := List.any_eq_true.mp hrk
    have hc0len : c0.2.length = t.rowMask.length := by
      rw [rowMask_length, nRows_rect hrect htne, hrect c0 hc0]
    have hcellmem : c0.2.getD j Cell.missing ∈ applyMask t.rowMask c0.2 := by
      rw [applyMask_eq_map hc0len]
      exact List.mem_map.mpr ⟨j, hjmem, rfl⟩
    have hkeep : (applyMask t.rowMask c0.2).any (fun x => !x.isMissing) = true :=
      List.any_eq_true.mpr ⟨_, hcellmem, hcell⟩
    have hmemU : (c0.1, coerceCol ((applyMask t.rowMask c0.2).map Cell.deInf)) ∈
        (process_data t).cols := by
      rw [process_cols]
      refine List.mem_map.mpr ⟨(c0.1, applyMask t.rowMask c0.2), ?_, rfl⟩
      exact List.mem_filter.mpr ⟨List.mem_map.mpr ⟨c0, hc0, rfl⟩, hkeep⟩
    have hpos : (applyMask t.rowMask c0.2).get? i = some (c0.2.getD j Cell.missing) := by
      rw [applyMask_eq_map hc0len, List.get?_map, hj]
      rfl
    have hjc : j < c0.2.length := by rw [hc0len]; exact hjlt
    have hcj : c0.2.getD j Cell.missing ∈ c0.2 := by
      rw [List.getD_eq_get?, List.get?_eq_get hjc]
      exact List.get_mem c0.2 j hjc
    have hdeinf : Cell.deInf (c0.2.getD j Cell.missing) = c0.2.getD j Cell.missing :=
      deInf_eq_self (coercionSafe_isInf (hsafe c0 hc0 _ hcj))
    have hpos2 : ((applyMask t.rowMask c0.2).map Cell.deInf).get? i =
        some (c0.2.getD j Cell.missing) := by
      rw [List.get?_map, hpos, Option.map_some', hdeinf]
    have hpat := coerceCol_get?_isMissing_safe (safe_masked_deInf hsafe hc0) i
    rw [hpos2] at hpat
    cases hci : (coerceCol ((applyMask t.rowMask c0.2).map Cell.deInf)).get? i with
    | none => rw [hci] at hpat; exact absurd hpat (by simp)
    | some y =>
      rw [hci] at hpat
      simp only [Option.map_some', Option.some.injEq] at hpat
      unfold Table.rowKept
      refine List.any_eq_true.mpr ⟨_, hmemU, ?_⟩
      show (!(((coerceCol ((applyMask t.rowMask c0.2).map Cell.deInf))).getD i
        Cell.missing).isMissing) = true
      rw [List.getD_eq_get?, hci]
      show (!y.isMissing) = true
      rw [hpat]
      exact hcell

theorem dropEmptyRows_eq_self {u : Table} {k : ℕ} (hrect : u.Rect k)
    (hall : ∀ i, i < u.nRows → u.rowKept i = true) : dropEmptyRows u = u := by
  unfold dropEmptyRows
  have h : u.cols.map (fun c => (c.1, applyMask u.rowMask c.2)) = u.cols := by
    have hstep : ∀ c ∈ u.cols, (c.1, applyMask u.rowMask c.2) = c := by
      intro c hc
      have hne : u.cols ≠ [] := fun h => List.not_mem_nil _ (h ▸ hc)
      have hlen : c.2.length = u.rowMask.length := by
        rw [rowMask_length, nRows_rect hrect hne, hrect c hc]
      have hmask : ∀ b ∈ u.rowMask, b = true := by
        intro b hb
        obtain ⟨i, hi, rfl⟩ := List.mem_map.mp hb
        exact hall i (List.mem_range.mp hi)
      rw [applyMask_all_true hlen hmask]
    calc u.cols.map (fun c => (c.1, applyMask u.rowMask c.2))
        = u.cols.map id := List.map_congr_left hstep
      _ = u.cols := List.map_id u.cols
  exact congrArg Table.mk h

theorem dropEmptyCols_eq_self {u : Table}
    (hall : ∀ c ∈ u.cols, c.2.any (fun x => !x.isMissing) = true) :
    dropEmptyCols u = u := by
  unfold dropEmptyCols
  exact congrArg Table.mk (List.filter_eq_self.mpr hall)

theorem replaceInfs_eq_self {u : Table}
    (hnoinf : ∀ c ∈ u.cols, ∀ x ∈ c.2, x.isInf = false) : replaceInfs u = u := by
  unfold replaceInfs
  have h : u.cols.map (fun c => (c.1, c.2.map Cell.deInf)) = u.cols := by
    have hstep : ∀ c ∈ u.cols, (c.1, c.2.map Cell.deInf) = c := by
      intro c hc
      have : c.2.map Cell.deInf = c.2 := by
        calc c.2.map Cell.deInf
            = c.2.map id := List.map_congr_left (fun x hx => deInf_eq_self (hnoinf c hc x hx))
          _ = c.2 := List.map_id c.2
      rw [this]
    calc u.cols.map (fun c => (c.1, c.2.map Cell.deInf))
        = u.cols.map id := List.map_congr_left hstep
      _ = u.cols := List.map_id u.cols
  exact congrArg Table.mk h

theorem coerceCols_process (t : Table) :
    coerceCols (process_data t) = process_data t := by
  unfold coerceCols
  have h : (process_data t).cols.map (fun c => (c.1, coerceCol c.2)) =
      (process_data t).cols := by
    rw [process_cols, List.map_map]
    apply List.map_congr_left
    intro c _
    show ((c.1, coerceCol (coerceCol (c.2.map Cell.deInf))) : String × List Cell) =
      (c.1, coerceCol (c.2.map Cell.deInf))
    rw [coerceCol_idem]
  exact congrArg Table.mk h

/-! ### Cell classification helpers -/

theorem isInf_not_missing {x : Cell} (h : x.isInf = true) : x.isMissing = false := by
  cases x <;> first | rfl | exact absurd h (by simp [Cell.isInf])

theorem isStr_not_missing {x : Cell} (h : x.isStr = true) : x.isMissing = false := by
  cases x <;> first | rfl | exact absurd h (by simp [Cell.isStr])

theorem isStr_not_inf {x : Cell} (h : x.isStr = true) : x.isInf = false := by
  cases x <;> first | rfl | exact absurd h (by simp [Cell.isStr])

theorem isMissing_eq_missing {x : Cell} (h : x.isMissing = true) : x = Cell.missing := by
  cases x <;> first | rfl | exact absurd h (by simp [Cell.isMissing])

theorem deInf_of_isInf {x : Cell} (h : x.isInf = true) : Cell.deInf x = Cell.missing := by
  cases x with
  | inf b => rfl
  | missing => rfl
  | str s => exact absurd h (by simp [Cell.isInf])
  | num q => exact absurd h (by simp [Cell.isInf])

theorem tryToNum_getD_isStr {x : Cell} (hi : (Cell.tryToNum x).isSome = true) :
    ((Cell.tryToNum x).getD x).isStr = false := by
  obtain ⟨y, hy⟩ := Option.isSome_iff_exists.mp hi
  rw [hy]
  show y.isStr = false
  exact tryToNum_isStr hy

theorem getD_mem_of_lt {l : List Cell} {i : ℕ} (h : i < l.length) :
    l.getD i Cell.missing ∈ l := by
  rw [List.getD_eq_get?, List.get?_eq_get h]
  exact List.get_mem l i h

/-- Claim-facing description of the row mask: row `i` is kept exactly when
row `i` is not all-missing. -/
theorem rowMask_eq_rowAt {t : Table} {n : ℕ} (hrect : t.Rect n) (hne : t.cols ≠ []) :
    t.rowMask = (List.range n).map (fun i => !((t.rowAt i).all Cell.isMissing)) := by
  unfold Table.rowMask
  rw [nRows_rect hrect hne]
  exact List.map_congr_left (fun i _ => rowKept_eq t i)

/-! ### Lemmas for an all-textual column -/

theorem rowMask_all_true_of_allstr {t : Table} {n : ℕ} {name : String}
    {cells : List Cell} (hrect : t.Rect n) (hmem : (name, cells) ∈ t.cols)
    (hstr : cells.all Cell.isStr = true) : ∀ b ∈ t.rowMask, b = true := by
  intro b hb
  obtain ⟨i, hir, rfl⟩ := List.mem_map.mp hb
  have hne : t.cols ≠ [] := fun h => List.not_mem_nil _ (h ▸ hmem)
  have hi : i < t.nRows := List.mem_range.mp hir
  have hin : i < cells.length := by
    rw [hrect (name, cells) hmem, ← nRows_rect hrect hne]
    exact hi
  unfold Table.rowKept
  refine List.any_eq_true.mpr ⟨(name, cells), hmem, ?_⟩
  show (!((cells.getD i Cell.missing).isMissing)) = true
  rw [isStr_not_missing (List.all_eq_true.mp hstr _ (getD_mem_of_lt hin))]
  rfl

theorem getCol_process_allstr {t : Table} {n : ℕ} {name : String} {cells : List Cell}
    (hrect : t.Rect n) (hnd : t.header.Nodup) (hmem : (name, cells) ∈ t.cols)
    (hne : cells ≠ []) (hstr : cells.all Cell.isStr = true) :
    (process_data t).getCol name = some (coerceCol cells) := by
  have htne : t.cols ≠ [] := fun h => List.not_mem_nil _ (h ▸ hmem)
  have hlen : cells.length = t.rowMask.length := by
    rw [rowMask_length, nRows_rect hrect htne, hrect (name, cells) hmem]
  have hmask : applyMask t.rowMask cells = cells :=
    applyMask_all_true hlen (rowMask_all_true_of_allstr hrect hmem hstr)
  have hdeinf : cells.map Cell.deInf = cells := by
    calc cells.map Cell.deInf
        = cells.map id := List.map_congr_left
            (fun x hx => deInf_eq_self (isStr_not_inf (List.all_eq_true.mp hstr x hx)))
      _ = cells := List.map_id cells
  have hany : cells.any (fun x => !x.isMissing) = true := by
    cases cells with
    | nil => exact absurd rfl hne
    | cons c0 cs =>
      refine List.any_eq_true.mpr ⟨c0, List.mem_cons_self c0 cs, ?_⟩
      rw [isStr_not_missing (List.all_eq_true.mp hstr c0 (List.mem_cons_self c0 cs))]
      rfl
  rw [getCol_process hnd hmem, hmask, if_pos (by rw [hany]), hdeinf]

/-! ### Lemmas for an all-infinity row -/

theorem inf_row_cells {t : Table} {i : ℕ} (hinf : (t.rowAt i).all Cell.isInf = true) :
    ∀ c ∈ t.cols, (c.2.getD i Cell.missing).isInf = true := by
  intro c hc
  exact List.all_eq_true.mp hinf _ (List.mem_map.mpr ⟨c, hc, rfl⟩)

theorem inf_row_kept {t : Table} {i : ℕ} (hne : t.cols ≠ [])
    (hinf : (t.rowAt i).all Cell.isInf = true) : t.rowKept i = true := by
  cases hc : t.cols with
  | nil => exact absurd hc hne
  | cons c0 cs =>
    have hc0 : c0 ∈ t.cols := by rw [hc]; exact List.mem_cons_self c0 cs
    unfold Table.rowKept
    refine List.any_eq_true.mpr ⟨c0, hc0, ?_⟩
    rw [isInf_not_missing (inf_row_cells hinf c0 hc0)]
    rfl

theorem inf_row_mem_keptIdxs {t : Table} {n i : ℕ} (hrect : t.Rect n) (hi : i < n)
    (hne : t.cols ≠ []) (hinf : (t.rowAt i).all Cell.isInf = true) :
    i ∈ keptIdxs t.rowMask := by
  have hn : t.nRows = n := nRows_rect hrect hne
  have hilt : i < t.rowMask.length := by rw [rowMask_length, hn]; exact hi
  refine mem_keptIdxs_of hilt ?_
  rw [rowMask_getD (by omega : i < t.nRows)]
  exact inf_row_kept hne hinf

theorem process_cols_of_inf_row {t : Table} {n i : ℕ} (hrect : t.Rect n) (hi : i < n)
    (hne : t.cols ≠ []) (hinf : (t.rowAt i).all Cell.isInf = true) :
    (process_data t).cols =
      t.cols.map (fun c => (c.1, coerceCol ((applyMask t.rowMask c.2).map Cell.deInf))) := by
  rw [process_cols]
  have hkeep : ∀ x ∈ t.cols.map (fun c => (c.1, applyMask t.rowMask c.2)),
      x.2.any (fun y => !y.isMissing) = true := by
    intro x hx
    obtain ⟨c, hc, rfl⟩ := List.mem_map.mp hx
    have hclen : c.2.length = t.rowMask.length := by
      rw [rowMask_length, nRows_rect hrect hne, hrect c hc]
    have hcellmem : c.2.getD i Cell.missing ∈ applyMask t.rowMask c.2 := by
      rw [applyMask_eq_map hclen]
      exact List.mem_map.mpr ⟨i, inf_row_mem_keptIdxs hrect hi hne hinf, rfl⟩
    refine List.any_eq_true.mpr ⟨_, hcellmem, ?_⟩
    rw [isInf_not_missing (inf_row_cells hinf c hc)]
    rfl
  rw [List.filter_eq_self.mpr hkeep, List.map_map]
  rfl

/-! ### Validation helpers -/

theorem isEmptyTable_false_of {t : Table} {n : ℕ} (hrect : t.Rect n)
    (h0 : t.cols.length ≠ 0) (hn : n ≠ 0) : t.isEmptyTable = false := by
  have hcne : t.cols ≠ [] := fun hh => h0 (by rw [hh]; rfl)
  unfold Table.isEmptyTable
  rw [Bool.or_eq_false_iff]
  constructor
  · rw [List.isEmpty_eq_false]
    exact hcne
  · rw [nRows_rect hrect hcne]
    exact beq_eq_false_iff_ne.mpr hn

/-- C2: `validate_data` fails with the empty-input message when some axis has
length zero, with the insufficient-columns message when there are fewer than
two columns, with the duplicate-columns message when a column name repeats,
and succeeds exactly when the table is non-empty with at least two columns
and pairwise-distinct column names. -/
theorem claim2_validate (t : Table) (n : ℕ) (hrect : t.Rect n) :
    (t.cols.length = 0 ∨ n = 0 → validate_data t = (false, msgEmptyInput)) ∧
    (t.cols.length ≠ 0 → n ≠ 0 → t.cols.length < 2 →
      validate_data t = (false, msgInsufficientColumns)) ∧
    (t.cols.length ≠ 0 → n ≠ 0 → 2 ≤ t.cols.length → ¬ t.header.Nodup →
      validate_data t = (false, msgDuplicateColumns)) ∧
    ((validate_data t).1 = true ↔
      t.cols.length ≠ 0 ∧ n ≠ 0 ∧ 2 ≤ t.cols.length ∧ t.header.Nodup) := by
  refine ⟨?_, ?_, ?_, ?_⟩
  · intro h
    have hempty : t.isEmptyTable = true := by
      rcases h with h | h
      · unfold Table.isEmptyTable
        rw [List.isEmpty_eq_true.mpr (List.length_eq_zero.mp h)]
        rfl
      · by_cases hc : t.cols = []
        · unfold Table.isEmptyTable
          rw [List.isEmpty_eq_true.mpr hc]
          rfl
        · unfold Table.isEmptyTable
          rw [nRows_rect hrect hc, h]
          simp
    unfold validate_data
    rw [if_pos hempty]
  · intro h0 hn hlt
    unfold validate_data
    rw [if_neg (by rw [isEmptyTable_false_of hrect h0 hn]; exact Bool.false_ne_true),
      if_pos hlt]
  · intro h0 hn h2 hdup
    have hbeq : (t.header.dedup == t.header) = false := by
      rw [beq_eq_false_iff_ne]
      intro hh
      exact hdup (List.dedup_eq_self.mp hh)
    unfold validate_data
    rw [if_neg (by rw [isEmptyTable_false_of hrect h0 hn]; exact Bool.false_ne_true),
      if_neg (by omega), if_pos (by rw [hbeq]; rfl)]
  · constructor
    · intro hv
      unfold validate_data at hv
      by_cases h1 : t.isEmptyTable = true
      · rw [if_pos h1] at hv
        exact absurd hv (by simp)
      · rw [if_neg h1] at hv
        by_cases h2 : t.cols.length < 2
        · rw [if_pos h2] at hv
          exact absurd hv (by simp)
        · rw [if_neg h2] at hv
          by_cases h3 : (!(t.header.dedup == t.header)) = true
          · rw [if_pos h3] at hv
            exact absurd hv (by simp)
          · have hcne : t.cols ≠ [] := by
              intro hh
              apply h1
              unfold Table.isEmptyTable
              rw [List.isEmpty_eq_true.mpr hh]
              rfl
            have h0 : t.cols.length ≠ 0 := fun hh => hcne (List.length_eq_zero.mp hh)
            have hnd : t.header.Nodup := by
              have hbeq : (t.header.dedup == t.header) = true := by simpa using h3
              exact List.dedup_eq_self.mp (beq_iff_eq.mp hbeq)
            refine ⟨h0, ?_, by omega, hnd⟩
            intro hh
            apply h1
            unfold Table.isEmptyTable
            rw [nRows_rect hrect hcne, hh]
            simp
    · rintro ⟨h0, hn, h2, hnd⟩
      unfold validate_data
      rw [if_neg (by rw [isEmptyTable_false_of hrect h0 hn]; exact Bool.false_ne_true),
        if_neg (by omega),
        if_neg (by rw [beq_iff_eq.mpr (List.dedup_eq_self.mpr hnd)]; simp)]

/-- Witness for C2 at concrete tables: each error case and the success case. -/
theorem claim2_witness :
    validate_data (Table.mk []) = (false, msgEmptyInput) ∧
    validate_data (Table.mk [("a", [Cell.num 1])]) = (false, msgInsufficientColumns) ∧
    validate_data (Table.mk [("a", [Cell.num 1]), ("a", [Cell.num 2])]) =
      (false, msgDuplicateColumns) ∧
    (validate_data (Table.mk [("a", [Cell.num 1]), ("b", [Cell.num 2])])).1 = true := by
  refine ⟨?_, ?_, ?_, ?_⟩
  · exact (claim2_validate (Table.mk []) 0 (by decide)).1 (Or.inl rfl)
  · exact (claim2_validate (Table.mk [("a", [Cell.num 1])]) 1 (by decide)).2.1
      (by decide) (by decide) (by decide)
  · exact (claim2_validate (Table.mk [("a", [Cell.num 1]), ("a", [Cell.num 2])]) 1
      (by decide)).2.2.1 (by decide) (by decide) (by decide) (by decide)
  · exact (claim2_validate (Table.mk [("a", [Cell.num 1]), ("b", [Cell.num 2])]) 1
      (by decide)).2.2.2.mpr ⟨by decide, by decide, by decide, by decide⟩

/-- Shared case analysis of `create_chart`: which check fires first. -/
theorem create_chart_cases (df : Table) (s : ChartSettings) :
    (s.path_columns = [] →
      DataVisualizer.create_chart df s = .error .MissingHierarchy) ∧
    (s.path_columns ≠ [] → s.chart_type ∉ chartKinds →
      DataVisualizer.create_chart df s = .error (.UnknownChartKind s.chart_type)) ∧
    (s.path_columns ≠ [] → s.chart_type ∈ chartKinds →
      (∃ c ∈ s.path_columns, c ∉ df.header) →
      DataVisualizer.create_chart df s = .error (.ColumnNotFound
        (msgColumnsNotFound (s.path_columns.filter (fun c => decide (c ∉ df.header)))))) ∧
    (s.path_columns ≠ [] → s.chart_type ∈ chartKinds →
      (∀ c ∈ s.path_columns, c ∈ df.header) →
      useValues s = true → s.values_column.getD "" ∉ df.header →
      DataVisualizer.create_chart df s = .error (.ColumnNotFound
        (msgValuesNotFound (s.values_column.getD "")))) ∧
    (s.path_columns ≠ [] → s.chart_type ∈ chartKinds →
      (∀ c ∈ s.path_columns, c ∈ df.header) →
      (useValues s = true → s.values_column.getD "" ∈ df.header) →
      useColor s = true → s.color_column.getD "" ∉ df.header →
      DataVisualizer.create_chart df s = .error (.ColumnNotFound
        (msgColorNotFound (s.color_column.getD "")))) ∧
    (s.path_columns ≠ [] → s.chart_type ∈ chartKinds →
      (∀ c ∈ s.path_columns, c ∈ df.header) →
      (useValues s = true → s.values_column.getD "" ∈ df.header) →
      (useColor s = true → s.color_column.getD "" ∈ df.header) →
      ∃ p, DataVisualizer.create_chart df s = .ok p) := by
  refine ⟨?_, ?_, ?_, ?_, ?_, ?_⟩
  · intro h
    unfold DataVisualizer.create_chart
    rw [if_pos (by rw [h]; rfl)]
  · intro h1 h2
    unfold DataVisualizer.create_chart
    rw [if_neg (fun hh => h1 (List.isEmpty_iff.mp hh)), if_pos h2]
  · intro h1 h2 h3
    obtain ⟨c, hc, hcn⟩ := h3
    have hfil : c ∈ s.path_columns.filter (fun c => decide (c ∉ df.header)) :=
      List.mem_filter.mpr ⟨hc, by rw [decide_eq_true_eq]; exact hcn⟩
    unfold DataVisualizer.create_chart
    rw [if_neg (fun hh => h1 (List.isEmpty_iff.mp hh)), if_neg (not_not_intro h2),
      if_pos (fun hh => (List.ne_nil_of_mem hfil) (List.isEmpty_iff.mp hh))]
  · intro h1 h2 h3 hv hvn
    have hfil : s.path_columns.filter (fun c => decide (c ∉ df.header)) = [] :=
      List.filter_eq_nil.mpr (fun c hc => by
        rw [decide_eq_true_eq]
        exact not_not_intro (h3 c hc))
    unfold DataVisualizer.create_chart
    rw [if_neg (fun hh => h1 (List.isEmpty_iff.mp hh)), if_neg (not_not_intro h2),
      if_neg (not_not_intro (by rw [hfil]; rfl)), if_pos ⟨hv, hvn⟩]
  · intro h1 h2 h3 hv hc hcn
    have hfil : s.path_columns.filter (fun c => decide (c ∉ df.header)) = [] :=
      List.filter_eq_nil.mpr (fun c hc => by
        rw [decide_eq_true_eq]
        exact not_not_intro (h3 c hc))
    unfold DataVisualizer.create_chart
    rw [if_neg (fun hh => h1 (List.isEmpty_iff.mp hh)), if_neg (not_not_intro h2),
      if_neg (not_not_intro (by rw [hfil]; rfl)),
      if_neg (fun hcond => hcond.2 (hv hcond.1)), if_pos ⟨hc, hcn⟩]
  · intro h1 h2 h3 hv hc
    have hfil : s.path_columns.filter (fun c => decide (c ∉ df.header)) = [] :=
      List.filter_eq_nil.mpr (fun c hc => by
        rw [decide_eq_true_eq]
        exact not_not_intro (h3 c hc))
    unfold DataVisualizer.create_chart
    rw [if_neg (fun hh => h1 (List.isEmpty_iff.mp hh)), if_neg (not_not_intro h2),
      if_neg (not_not_intro (by rw [hfil]; rfl)),
      if_neg (fun hcond => hcond.2 (hv hcond.1)),
      if_neg (fun hcond => hcond.2 (hc hcond.1))]
    exact ⟨_, rfl⟩

/-- C3: the five validation checks of `create_chart` run in a fixed order and
the first failing check determines the error; when no check fails a chart is
produced. -/
theorem claim3_check_order (df : Table) (s : ChartSettings) :
    (s.path_columns = [] →
      DataVisualizer.create_chart df s = .error .MissingHierarchy) ∧
    (s.path_columns ≠ [] → s.chart_type ∉ chartKinds →
      DataVisualizer.create_chart df s = .error (.UnknownChartKind s.chart_type)) ∧
    (s.path_columns ≠ [] → s.chart_type ∈ chartKinds →
      (∃ c ∈ s.path_columns, c ∉ df.header) →
      DataVisualizer.create_chart df s = .error (.ColumnNotFound
        (msgColumnsNotFound (s.path_columns.filter (fun c => decide (c ∉ df.header)))))) ∧
    (s.path_columns ≠ [] → s.chart_type ∈ chartKinds →
      (∀ c ∈ s.path_columns, c ∈ df.header) →
      useValues s = true → s.values_column.getD "" ∉ df.header →
      DataVisualizer.create_chart df s = .error (.ColumnNotFound
        (msgValuesNotFound (s.values_column.getD "")))) ∧
    (s.path_columns ≠ [] → s.chart_type ∈ chartKinds →
      (∀ c ∈ s.path_columns, c ∈ df.header) →
      (useValues s = true → s.values_column.getD "" ∈ df.header) →
      useColor s = true → s.color_column.getD "" ∉ df.header →
      DataVisualizer.create_chart df s = .error (.ColumnNotFound
        (msgColorNotFound (s.color_column.getD "")))) ∧
    (s.path_columns ≠ [] → s.chart_type ∈ chartKinds →
      (∀ c ∈ s.path_columns, c ∈ df.header) →
      (useValues s = true → s.values_column.getD "" ∈ df.header) →
      (useColor s = true → s.color_column.getD "" ∈ df.header) →
      ∃ p, DataVisualizer.create_chart df s = .ok p) :=
  create_chart_cases df s

/-- Witness for C3: each of the six cases exercised at a concrete table and
settings. -/
theorem claim3_witness :
    DataVisualizer.create_chart (Table.mk [("a", [Cell.num 1]), ("b", [Cell.num 2])])
        ⟨"Sunburst", [], none, none, none, 800, 800⟩ = .error .MissingHierarchy ∧
    DataVisualizer.create_chart (Table.mk [("a", [Cell.num 1]), ("b", [Cell.num 2])])
        ⟨"Pie", ["a"], none, none, none, 800, 800⟩ = .error (.UnknownChartKind "Pie") ∧
    DataVisualizer.create_chart (Table.mk [("a", [Cell.num 1]), ("b", [Cell.num 2])])
        ⟨"Treemap", ["x"], none, none, none, 800, 800⟩ =
      .error (.ColumnNotFound "Columns not found in data: x") ∧
    DataVisualizer.create_chart (Table.mk [("a", [Cell.num 1]), ("b", [Cell.num 2])])
        ⟨"Treemap", ["a"], some "v", none, none, 800, 800⟩ =
      .error (.ColumnNotFound "Values column 'v' not found in data") ∧
    DataVisualizer.create_chart (Table.mk [("a", [Cell.num 1]), ("b", [Cell.num 2])])
        ⟨"Treemap", ["a"], some "b", some "z", none, 800, 800⟩ =
      .error (.ColumnNotFound "Color column 'z' not found in data") ∧
    ∃ p, DataVisualizer.create_chart (Table.mk [("a", [Cell.num 1]), ("b", [Cell.num 2])])
        ⟨"Icicle", ["a"], some "b", some "a", some "Viridis", 700, 600⟩ = .ok p := by
  refine ⟨?_, ?_, ?_, ?_, ?_, ?_⟩
  · exact (claim3_check_order _ _).1 rfl
  · exact (claim3_check_order _ _).2.1 (by decide) (by decide)
  · exact ((claim3_check_order _ _).2.2.1 (by decide) (by decide)
      ⟨"x", by decide, by decide⟩).trans (by rfl)
  · exact ((claim3_check_order _ _).2.2.2.1 (by decide) (by decide) (by decide)
      (by decide) (by decide)).trans (by rfl)
  · exact ((claim3_check_order _ _).2.2.2.2.1 (by decide) (by decide) (by decide)
      (by decide) (by decide) (by decide)).trans (by rfl)
  · exact (claim3_check_order _ _).2.2.2.2.2 (by decide) (by decide) (by decide)
      (by decide) (by decide)

/-- C7: with an empty hierarchy selection `create_chart` always fails with
the missing-hierarchy error, whatever the other settings and the table. -/
theorem claim7_empty_hierarchy (df : Table) (kind : String)
    (v c sch : Option String) (w h : ℕ) :
    DataVisualizer.create_chart df ⟨kind, [], v, c, sch, w, h⟩ =
      .error .MissingHierarchy := rfl

/-- C8: when some hierarchy column is absent from the table (and the chart
kind is one of the three known kinds, so that the earlier check passes), the
result is a `ColumnNotFound` error whose message lists exactly the missing
columns, comma-joined; every absent hierarchy column appears in that list. -/
theorem claim8_missing_path_columns (df : Table) (s : ChartSettings)
    (hkind : s.chart_type ∈ chartKinds)
    (hex : ∃ c ∈ s.path_columns, c ∉ df.header) :
    DataVisualizer.create_chart df s = .error (.ColumnNotFound
      ("Columns not found in data: " ++ String.intercalate ", "
        (s.path_columns.filter (fun c => decide (c ∉ df.header))))) ∧
    ∀ c ∈ s.path_columns, c ∉ df.header →
      c ∈ s.path_columns.filter (fun c => decide (c ∉ df.header)) := by
  obtain ⟨c0, hc0, hc0n⟩ := hex
  constructor
  · exact (create_chart_cases df s).2.2.1 (List.ne_nil_of_mem hc0) hkind ⟨c0, hc0, hc0n⟩
  · intro c hc hcn
    exact List.mem_filter.mpr ⟨hc, by rw [decide_eq_true_eq]; exact hcn⟩

/-- Witness for C8: a single absent column "X" yields a `ColumnNotFound`
error mentioning "X", and no chart is produced. -/
theorem claim8_witness :
    DataVisualizer.create_chart (Table.mk [("a", [Cell.num 1]), ("b", [Cell.num 2])])
        ⟨"Sunburst", ["X"], none, none, none, 800, 800⟩ =
      .error (.ColumnNotFound "Columns not found in data: X") :=
  ((claim8_missing_path_columns
      (Table.mk [("a", [Cell.num 1]), ("b", [Cell.num 2])])
      ⟨"Sunburst", ["X"], none, none, none, 800, 800⟩
      (by decide) ⟨"X", by decide, by decide⟩).1).trans (by rfl)

/-- C9 (amended): when `values_column` or `color_column` is unset or the
sentinel "None", no existence check is performed and no sizing/coloring field
is attached; when `color_scheme` is unset or the sentinel "Default" no
palette override is attached; when `color_scheme` is any other NON-EMPTY
value it is attached as a continuous palette override with no check that a
coloring field is set or numeric. -/
theorem claim9_amended_sentinels (df : Table) (s : ChartSettings)
    (hpath : s.path_columns ≠ []) (hkind : s.chart_type ∈ chartKinds)
    (hcols : ∀ c ∈ s.path_columns, c ∈ df.header)
    (hv : s.values_column = none ∨ s.values_column = some "None")
    (hc : s.color_column = none ∨ s.color_column = some "None") :
    ∃ p, DataVisualizer.create_chart df s = .ok p ∧ p.values = none ∧ p.color = none ∧
      (s.color_scheme = none ∨ s.color_scheme = some "Default" →
        p.color_continuous_scale = none) ∧
      (∀ sch, s.color_scheme = some sch → sch ≠ "" → sch ≠ "Default" →
        p.color_continuous_scale = some sch) := by
  have huv : useValues s = false := by
    unfold useValues optTruthy
    rcases hv with h | h <;> rw [h] <;> rfl
  have huc : useColor s = false := by
    unfold useColor optTruthy
    rcases hc with h | h <;> rw [h] <;> rfl
  have hfil : s.path_columns.filter (fun c => decide (c ∉ df.header)) = [] :=
    List.filter_eq_nil.mpr (fun c hcp => by
      rw [decide_eq_true_eq]
      exact not_not_intro (hcols c hcp))
  unfold DataVisualizer.create_chart
  rw [if_neg (fun hh => hpath (List.isEmpty_iff.mp hh)), if_neg (not_not_intro hkind),
    if_neg (not_not_intro (by rw [hfil]; rfl)),
    if_neg (fun hcond => Bool.false_ne_true (huv ▸ hcond.1)),
    if_neg (fun hcond => Bool.false_ne_true (huc ▸ hcond.1))]
  refine ⟨_, rfl, ?_, ?_, ?_, ?_⟩
  · show (if useValues s = true then s.values_column else none) = none
    rw [huv]
    simp
  · show (if useColor s = true then s.color_column else none) = none
    rw [huc]
    simp
  · intro hsch
    show (if useScheme s = true then s.color_scheme else none) = none
    have husch : useScheme s = false := by
      unfold useScheme optTruthy
      rcases hsch with h | h <;> rw [h] <;> rfl
    rw [husch]
    simp
  · intro sch hsch hne hnd
    show (if useScheme s = true then s.color_scheme else none) = some sch
    have h1 : sch.isEmpty = false := by
      cases hie : sch.isEmpty
      · rfl
      · exact absurd ((String.isEmpty_iff sch).mp hie) hne
    have husch : useScheme s = true := by
      unfold useScheme optTruthy
      rw [hsch]
      show ((!sch.isEmpty) && (sch != "Default")) = true
      rw [h1, bne_iff_ne.mpr hnd]
      rfl
    rw [husch, hsch]
    simp

/-- Counterexample to C9 as stated: `color_scheme` set to the empty string is
neither "Default" nor unset, yet no palette override is attached, because the
source guards the assignment with Python truthiness. -/
theorem claim9_counterexample :
    DataVisualizer.create_chart (Table.mk [("a", [Cell.num 1]), ("b", [Cell.num 2])])
        ⟨"Sunburst", ["a"], none, none, some "", 800, 800⟩ =
      .ok { chart_type := "Sunburst"
            data_frame := Table.mk [("a", [Cell.num 1]), ("b", [Cell.num 2])]
            path := ["a"]
            width := 800
            height := 800
            values := none
            color := none
            color_continuous_scale := none } := by
  rfl

/-- Witness for C9: sentinel values column, unset color column, and a real
palette name, at a concrete table. -/
theorem claim9_witness :
    ∃ p, DataVisualizer.create_chart (Table.mk [("a", [Cell.num 1]), ("b", [Cell.num 2])])
        ⟨"Sunburst", ["a"], some "None", none, some "Viridis", 800, 800⟩ = .ok p ∧
      p.values = none ∧ p.color = none ∧ p.color_continuous_scale = some "Viridis" := by
  obtain ⟨p, hp, hv, hc, -, ha⟩ := claim9_amended_sentinels
    (Table.mk [("a", [Cell.num 1]), ("b", [Cell.num 2])])
    ⟨"Sunburst", ["a"], some "None", none, some "Viridis", 800, 800⟩
    (by decide) (by decide) (by decide) (Or.inr rfl) (Or.inl rfl)
  exact ⟨p, hp, hv, hc, ha "Viridis" rfl (by decide) (by decide)⟩

/-- C5: `process_data` drops exactly the all-missing columns (the surviving
header is the original header restricted to columns with a non-missing cell)
and drops exactly the all-missing rows (each surviving column keeps
precisely its cells at the row indices whose row is not all-missing, then
infinity replacement and numeric coercion are applied to what remains). -/
theorem claim5_drop_all_missing (t : Table) (n : ℕ) (hrect : t.Rect n)
    (hnd : t.header.Nodup) :
    ((process_data t).header =
      (t.cols.filter (fun c => !(c.2.all Cell.isMissing))).map Prod.fst) ∧
    (∀ name cells, (name, cells) ∈ t.cols →
      (process_data t).getCol name =
        if cells.all Cell.isMissing then none
        else some (coerceCol ((applyMask
            ((List.range n).map (fun i => !((t.rowAt i).all Cell.isMissing)))
            cells).map Cell.deInf))) := by
  refine ⟨process_header hrect, ?_⟩
  intro name cells hmem
  have hne : t.cols ≠ [] := fun h => List.not_mem_nil _ (h ▸ hmem)
  have hcond : (applyMask t.rowMask cells).any (fun x => !x.isMissing) =
      !(cells.all Cell.isMissing) := by
    rw [applyMask_rowMask_any hrect hmem, any_not_eq_not_all]
  rw [getCol_process hnd hmem, hcond, rowMask_eq_rowAt hrect hne]
  cases hall : cells.all Cell.isMissing <;> simp

/-- Witness for C5: a table with an all-missing row and an all-missing
column; the column "b" disappears, the row of missing cells disappears, the
rest survives. -/
theorem claim5_witness :
    (process_data (Table.mk [("a", [Cell.missing, Cell.num 1]),
        ("b", [Cell.missing, Cell.missing]),
        ("c", [Cell.missing, Cell.str "x"])])).header = ["a", "c"] ∧
    (process_data (Table.mk [("a", [Cell.missing, Cell.num 1]),
        ("b", [Cell.missing, Cell.missing]),
        ("c", [Cell.missing, Cell.str "x"])])).getCol "b" = none ∧
    (process_data (Table.mk [("a", [Cell.missing, Cell.num 1]),
        ("b", [Cell.missing, Cell.missing]),
        ("c", [Cell.missing, Cell.str "x"])])).getCol "a" = some [Cell.num 1] := by
  have h := claim5_drop_all_missing (Table.mk [("a", [Cell.missing, Cell.num 1]),
    ("b", [Cell.missing, Cell.missing]), ("c", [Cell.missing, Cell.str "x"])]) 2
    (by decide) (by decide)
  refine ⟨h.1.trans (by decide), ?_, ?_⟩
  · exact (h.2 "b" [Cell.missing, Cell.missing] (by decide)).trans (by decide)
  · exact (h.2 "a" [Cell.missing, Cell.num 1] (by decide)).trans (by decide)

/-- C10: a row whose cells are all infinities is not removed by a single
`process_data` call: every column survives, and the row comes back as a row
in which every cell is missing. -/
theorem claim10_inf_row (t : Table) (n i : ℕ) (hrect : t.Rect n) (hi : i < n)
    (hne : t.cols ≠ []) (hinf : (t.rowAt i).all Cell.isInf = true) :
    (process_data t).cols.length = t.cols.length ∧
    ∃ j, j < (process_data t).nRows ∧
      (process_data t).rowAt j = List.replicate t.cols.length Cell.missing := by
  have hcols := process_cols_of_inf_row hrect hi hne hinf
  have hlen : (process_data t).cols.length = t.cols.length := by
    rw [hcols, List.length_map]
  refine ⟨hlen, ?_⟩
  obtain ⟨j, hj⟩ := List.mem_iff_get?.mp (inf_row_mem_keptIdxs hrect hi hne hinf)
  refine ⟨j, ?_, ?_⟩
  · have hUne : (process_data t).cols ≠ [] := by
      intro h
      rw [h] at hlen
      exact hne (List.length_eq_zero.mp hlen.symm)
    rw [nRows_rect (process_rect hrect) hUne]
    by_contra hcon
    rw [List.get?_eq_none.mpr (le_of_not_lt hcon)] at hj
    exact Option.noConfusion hj
  · rw [Table.rowAt, hcols, List.map_map, List.eq_replicate]
    refine ⟨by rw [List.length_map], ?_⟩
    intro b hb
    obtain ⟨c, hc, rfl⟩ := List.mem_map.mp hb
    have hclen : c.2.length = t.rowMask.length := by
      rw [rowMask_length, nRows_rect hrect hne, hrect c hc]
    have hpos : (applyMask t.rowMask c.2).get? j = some (c.2.getD i Cell.missing) := by
      rw [applyMask_eq_map hclen, List.get?_map, hj]
      rfl
    have hdeinf : ((applyMask t.rowMask c.2).map Cell.deInf).get? j =
        some Cell.missing := by
      rw [List.get?_map, hpos, Option.map_some', deInf_of_isInf (inf_row_cells hinf c hc)]
    have hcoerce : (coerceCol ((applyMask t.rowMask c.2).map Cell.deInf)).get? j =
        some Cell.missing := coerceCol_get?_missing hdeinf
    show (coerceCol ((applyMask t.rowMask c.2).map Cell.deInf)).getD j Cell.missing =
      Cell.missing
    rw [List.getD_eq_get?, hcoerce]
    rfl

/-- Witness for C10: the table with rows [inf, -inf] and [1, 2] keeps both
columns, and the infinity row survives as a row of missing cells. -/
theorem claim10_witness :
    (process_data (Table.mk [("a", [Cell.inf true, Cell.num 1]),
        ("b", [Cell.inf false, Cell.num 2])])).cols.length = 2 ∧
    ∃ j, j < (process_data (Table.mk [("a", [Cell.inf true, Cell.num 1]),
        ("b", [Cell.inf false, Cell.num 2])])).nRows ∧
      (process_data (Table.mk [("a", [Cell.inf true, Cell.num 1]),
        ("b", [Cell.inf false, Cell.num 2])])).rowAt j =
        List.replicate 2 Cell.missing := by
  have h := claim10_inf_row (Table.mk [("a", [Cell.inf true, Cell.num 1]),
    ("b", [Cell.inf false, Cell.num 2])]) 2 0 (by decide) (by decide) (by decide)
    (by decide)
  exact h

end ChartCreator
